import Mathlib

/-!
Verification of `BAF2/v3/scripts/fix-connection-profile.py`.

The script backs up a JSON connection profile via `os.system('cp …')`,
reads and parses the profile, sets `client.organization`, sets
`client.connection.timeout.discover`, flattens multiline `pem`
certificate strings, and writes the result to a different relative path.

JSON documents are modelled by the inductive `JValue`; Python dicts are
association lists with insertion-order `assocSet` semantics (replace in
place when the key exists, append otherwise), matching CPython dict
behaviour for string keys.  Python strings are Lean `String`s and the
character-level operations (`str.strip`, `str.split('\n')`,
`'\\n'.join`, substring test `in`) are modelled on `List Char`.
`str.strip()` is modelled over ASCII whitespace, which is what occurs in
PEM material.
-/

set_option autoImplicit false

namespace FixProfile

/-- ASCII whitespace as stripped by Python's `str.strip()`. -/
def pyWs (c : Char) : Bool :=
  c = ' ' || c = '\t' || c = '\n' || c = '\r' || c = '\x0b' || c = '\x0c'

/-- Remove trailing whitespace (the right half of `str.strip()`). -/
def rstripL (cs : List Char) : List Char :=
  (cs.reverse.dropWhile pyWs).reverse

/-- Python `str.strip()` on the character list of a string. -/
def stripL (cs : List Char) : List Char :=
  rstripL (cs.dropWhile pyWs)

/-- Python `s.split('\n')` on character lists: split at every newline,
always returning at least one (possibly empty) piece. -/
def splitNlL : List Char → List (List Char)
  | [] => [[]]
  | c :: cs =>
    if c = '\n' then [] :: splitNlL cs
    else
      match splitNlL cs with
      | l :: ls => (c :: l) :: ls
      | [] => [[c]]

/-- Python `'\\n'.join(pieces)`: interleave the two-character sequence
backslash-`n` between the pieces. -/
def joinEscL : List (List Char) → List Char
  | [] => []
  | [l] => l
  | l :: ls => l ++ '\\' :: 'n' :: joinEscL ls

/-- Replace every newline character by the two-character sequence
backslash-`n`, leaving all other characters alone. -/
def replaceNlL : List Char → List Char
  | [] => []
  | c :: cs => if c = '\n' then '\\' :: 'n' :: replaceNlL cs else c :: replaceNlL cs

/-- Is `pat` a prefix of `cs`? -/
def prefAt (pat cs : List Char) : Bool :=
  match pat, cs with
  | [], _ => true
  | _ :: _, [] => false
  | a :: as, b :: bs => a = b && prefAt as bs

/-- Does `cs` contain `pat` as a contiguous run?  Models Python's
`pat in s` for strings. -/
def containsL (pat : List Char) : List Char → Bool
  | [] => prefAt pat []
  | c :: cs => prefAt pat (c :: cs) || containsL pat cs

/-- Python `sub in s` on Lean strings. -/
def strContains (s sub : String) : Bool :=
  containsL sub.data s.data

/-- The PEM header marker tested by the script. -/
def pemMarker : String := "-----BEGIN CERTIFICATE-----"

/-- The rewrite `'\\n'.join(value.strip().split('\n'))` applied to a
matching `pem` field (lines 31–32 of the script). -/
def flattenPem (s : String) : String :=
  String.mk (joinEscL (splitNlL (stripL s.data)))

/-- The join of the original lines (no stripping), exactly as the spec
words it: "the original lines joined by the two-character sequence
backslash-n".  Kept separate from `flattenPem` (the code) so the two can
be compared. -/
def specPemJoin (s : String) : String :=
  String.mk (joinEscL (splitNlL s.data))

/-- A parsed JSON document.  Numbers are modelled by `Int`: no claim
touches numeric values. -/
inductive JValue where
  | null
  | bool (b : Bool)
  | num (n : Int)
  | str (s : String)
  | arr (xs : List JValue)
  | obj (fields : List (String × JValue))

/-- First value stored under key `k`, like Python `d[k]` lookup. -/
def lookupF : List (String × JValue) → String → Option JValue
  | [], _ => none
  | (k', v) :: rest, k => if k' = k then some v else lookupF rest k

/-- Python `d[k] = v` on an insertion-ordered dict: replace the value in
place when the key exists, append the pair otherwise. -/
def assocSet : List (String × JValue) → String → JValue → List (String × JValue)
  | [], k, v => [(k, v)]
  | (k', v') :: rest, k, v =>
    if k' = k then (k, v) :: rest else (k', v') :: assocSet rest k v

mutual

/-- The function `fix_certificates` (lines 26–37): walk the document; every dict
entry keyed `"pem"` whose string value contains the PEM marker is
flattened; dict and list values are visited recursively; everything
else is left alone. -/
def fix_certificates : JValue → JValue
  | .obj fields => .obj (fixFields fields)
  | .arr xs => .arr (fixItems xs)
  | v => v

/-- The body of the `for key, value in obj.items()` loop. -/
def fixFields : List (String × JValue) → List (String × JValue)
  | [] => []
  | (k, v) :: rest => (k, fixEntryVal k v) :: fixFields rest

/-- One loop iteration: string values are flattened exactly when the
key is `"pem"` and the marker occurs; dict and list values are recursed
into (the `elif isinstance(value, (dict, list))` branch); every other
value passes through. -/
def fixEntryVal : String → JValue → JValue
  | k, .str s =>
    if k = "pem" && strContains s pemMarker then .str (flattenPem s) else .str s
  | _, .obj fields => .obj (fixFields fields)
  | _, .arr xs => .arr (fixItems xs)
  | _, v => v

/-- The `for item in obj` loop over lists. -/
def fixItems : List JValue → List JValue
  | [] => []
  | v :: rest => fix_certificates v :: fixItems rest

end

/-- The ways a run of the script can abort. -/
inductive RunError where
  | ioError
  | parseError
  | keyError
  | typeError

/-- The value assigned to `discover` (lines 20–23). -/
def discoverVal : JValue :=
  .obj [("enabled", .bool true), ("asLocalhost", .bool true)]

/-- Line 17: `connection_profile['client']['organization'] = 'Org1MSP'`.
A missing `client` key raises `KeyError`; subscripting or item-assigning
a non-dict raises `TypeError`. -/
def orgStep (v : JValue) : Except RunError JValue :=
  match v with
  | .obj f =>
    match lookupF f "client" with
    | some (.obj cf) =>
      .ok (.obj (assocSet f "client"
        (.obj (assocSet cf "organization" (.str "Org1MSP")))))
    | some _ => .error .typeError
    | none => .error .keyError
  | _ => .error .typeError

/-- Lines 20–23:
`connection_profile['client']['connection']['timeout']['discover'] = {…}`.
Each subscript on the way down raises `KeyError` when the key is absent
and `TypeError` when the receiver is not a dict; no intermediate map is
ever created. -/
def discoverStep (v : JValue) : Except RunError JValue :=
  match v with
  | .obj f =>
    match lookupF f "client" with
    | some (.obj cf) =>
      match lookupF cf "connection" with
      | some (.obj nf) =>
        match lookupF nf "timeout" with
        | some (.obj tf) =>
          .ok (.obj (assocSet f "client"
            (.obj (assocSet cf "connection"
              (.obj (assocSet nf "timeout"
                (.obj (assocSet tf "discover" discoverVal))))))))
        | some _ => .error .typeError
        | none => .error .keyError
      | some _ => .error .typeError
      | none => .error .keyError
    | some _ => .error .typeError
    | none => .error .keyError
  | _ => .error .typeError

/-- The in-memory transformation of the script, lines 17–39: set the
organization, set the discovery map, then flatten certificates.  The
first raised error aborts the run. -/
def patch (v : JValue) : Except RunError JValue :=
  match orgStep v with
  | .error e => .error e
  | .ok v1 =>
    match discoverStep v1 with
    | .error e => .error e
    | .ok v2 => .ok (fix_certificates v2)

/-- One step into a JSON tree: a dict key or a list index. -/
inductive Step where
  | key (k : String)
  | idx (n : Nat)

/-- Follow a path of steps down a document. -/
def getAt : JValue → List Step → Option JValue
  | v, [] => some v
  | .obj f, .key k :: p =>
    match lookupF f k with
    | some v => getAt v p
    | none => none
  | .arr xs, .idx n :: p =>
    match xs[n]? with
    | some v => getAt v p
    | none => none
  | _, _ => none

/-- A value that is not a container. -/
def isLeaf : JValue → Bool
  | .obj _ => false
  | .arr _ => false
  | _ => true

/-- How `fix_certificates` acts on the subtree found at a path: through
a final dict key the key is in scope (`fixEntryVal`), otherwise the
plain recursion applies. -/
def cfix (p : List Step) (v : JValue) : JValue :=
  match p.getLast? with
  | some (.key k) => fixEntryVal k v
  | _ => fix_certificates v

/-- The leaf at this path is a certificate-rewrite site: the final step
is the dict key `"pem"` and the value is a string containing the PEM
marker. -/
def pemSiteB (p : List Step) (x : JValue) : Bool :=
  match p.getLast?, x with
  | some (.key k), .str s => k = "pem" && strContains s pemMarker
  | _, _ => false

/-- The path to `client.organization`. -/
def orgPath : List Step := [.key "client", .key "organization"]

/-- The path to `client.connection.timeout.discover`. -/
def discPath : List Step :=
  [.key "client", .key "connection", .key "timeout", .key "discover"]

/-- Python `d[k]` as a partial read on a document. -/
def jget (v : JValue) (k : String) : Option JValue :=
  match v with
  | .obj f => lookupF f k
  | _ => none

/-- Read `client.organization`. -/
def orgAt (v : JValue) : Option JValue :=
  (jget v "client").bind (fun c => jget c "organization")

/-- Read `client.connection.timeout.discover`. -/
def discoverAt (v : JValue) : Option JValue :=
  ((((jget v "client").bind (fun c => jget c "connection")).bind
      (fun c => jget c "timeout")).bind (fun c => jget c "discover"))

/-- The document is a dict whose `client` entry is a dict. -/
def hasClientMap (v : JValue) : Bool :=
  match v with
  | .obj f =>
    match lookupF f "client" with
    | some (.obj _) => true
    | _ => false
  | _ => false

/-- The bytes of a file, abstracted to whether they parse as JSON and,
when they do, to the parsed document.  Copying preserves this value
exactly, so byte-identity of a copy is equality here. -/
inductive FileData where
  | json (v : JValue)
  | malformed (raw : String)

/-- The three files the script touches.  `src` is
`../config/connection-profile.json` (a `none` means missing or
unreadable), `bak` the sibling `….json.bak`, and `out` the distinct
relative path `config/connection-profile.json` opened for writing on
line 42.  `bakWritable` (resp. `outWritable`) says whether creating the
backup (resp. the output) can succeed. -/
structure FS where
  src : Option FileData
  bak : Option FileData
  out : Option FileData
  bakWritable : Bool
  outWritable : Bool

/-- Line 7: `os.system('cp … ….bak')`.  The copy happens when the
source is readable and the destination writable; the exit status is
discarded by the script, so this function always returns a state and
never an error. -/
def doBackup (fs : FS) : FS :=
  if fs.bakWritable then
    match fs.src with
    | some c => { fs with bak := some c }
    | none => fs
  else fs

/-- Lines 10–14: `open(…, 'r')` raises an `IOError` when the source is
missing or unreadable, and `json.loads` raises a parse error on
malformed bytes. -/
def loadDoc : Option FileData → Except RunError JValue
  | none => .error .ioError
  | some (.malformed _) => .error .parseError
  | some (.json v) => .ok v

/-- Everything that can fail before the output is opened for writing:
read, parse, and the two key-path assignments (the certificate walk is
total). -/
def prePatch (fs : FS) : Except RunError JValue :=
  match loadDoc fs.src with
  | .error e => .error e
  | .ok d => patch d

/-- One run of the script: back up (status ignored), read, parse,
mutate, then write the result to the output path.  Returns the final
file-system state and the script's outcome. -/
def run (fs : FS) : FS × Except RunError Unit :=
  match prePatch (doBackup fs) with
  | .error e => (doBackup fs, .error e)
  | .ok d =>
    if (doBackup fs).outWritable then
      ({ doBackup fs with out := some (.json d) }, .ok ())
    else (doBackup fs, .error .ioError)

/-- A well-formed profile used to exercise the runs: it has the
`client`, `connection` and `timeout` maps the patcher requires. -/
def demoDoc : JValue :=
  .obj [("client", .obj [("organization", .str "X"),
    ("connection", .obj [("timeout", .obj [])])])]

/-- The document `demoDoc` after patching. -/
def demoPatched : JValue :=
  .obj [("client", .obj [("organization", .str "Org1MSP"),
    ("connection", .obj [("timeout", .obj [("discover", discoverVal)])])])]

/-- A starting state whose backup destination is not writable: the `cp`
on line 7 fails there, and the script ignores that failure. -/
def demoFS : FS :=
  { src := some (.json demoDoc), bak := none, out := none,
    bakWritable := false, outWritable := true }

/-! ### Association-list lemmas -/

theorem lookupF_assocSet_self (f : List (String × JValue)) (k : String) (v : JValue) :
    lookupF (assocSet f k v) k = some v := by
  induction f with
  | nil => simp [assocSet, lookupF]
  | cons e rest ih =>
    obtain ⟨k', v'⟩ := e
    by_cases h : k' = k <;> simp [assocSet, lookupF, h, ih]

theorem lookupF_assocSet_ne (f : List (String × JValue)) (k k' : String) (v : JValue)
    (h : k' ≠ k) : lookupF (assocSet f k v) k' = lookupF f k' := by
  have h' : ¬(k = k') := fun hh => h hh.symm
  induction f with
  | nil => simp [assocSet, lookupF, h']
  | cons e rest ih =>
    obtain ⟨k'', v''⟩ := e
    by_cases hk : k'' = k
    · subst hk
      simp [assocSet, lookupF, h']
    · by_cases hk' : k'' = k'
      · subst hk'
        simp [assocSet, lookupF, hk]
      · simp [assocSet, lookupF, hk, hk', ih]

theorem assocSet_of_lookupF (f : List (String × JValue)) (k : String) (v : JValue)
    (h : lookupF f k = some v) : assocSet f k v = f := by
  induction f with
  | nil => simp [lookupF] at h
  | cons e rest ih =>
    obtain ⟨k', v'⟩ := e
    by_cases hk : k' = k
    · subst hk
      simp [lookupF] at h
      simp [assocSet, h]
    · simp [lookupF, hk] at h
      simp [assocSet, hk, ih h]

theorem lookupF_fixFields (f : List (String × JValue)) (k : String) :
    lookupF (fixFields f) k = (lookupF f k).map (fixEntryVal k) := by
  induction f with
  | nil => simp [fixFields, lookupF]
  | cons e rest ih =>
    obtain ⟨k', v⟩ := e
    by_cases h : k' = k <;> simp [fixFields, lookupF, h, ih]

theorem getElem?_fixItems (xs : List JValue) (n : Nat) :
    (fixItems xs)[n]? = xs[n]?.map fix_certificates := by
  induction xs generalizing n with
  | nil => simp [fixItems]
  | cons x rest ih =>
    cases n with
    | zero => simp [fixItems]
    | succ m => simp [fixItems, ih]

/-! ### Basic facts about the certificate walk -/

theorem fix_certificates_isLeaf (v : JValue) (h : isLeaf v = true) :
    fix_certificates v = v := by
  cases v <;> simp_all [isLeaf, fix_certificates]

theorem fixEntryVal_obj (k : String) (f : List (String × JValue)) :
    fixEntryVal k (.obj f) = .obj (fixFields f) := by
  simp [fixEntryVal]

theorem fixEntryVal_arr (k : String) (xs : List JValue) :
    fixEntryVal k (.arr xs) = .arr (fixItems xs) := by
  simp [fixEntryVal]

theorem assocSet_assocSet (f : List (String × JValue)) (k : String) (v v' : JValue) :
    assocSet (assocSet f k v) k v' = assocSet f k v' := by
  induction f with
  | nil => simp [assocSet]
  | cons e rest ih =>
    obtain ⟨k', v''⟩ := e
    by_cases h : k' = k <;> simp [assocSet, h, ih]

/-- The document produced by lines 17–23 on a profile whose `client`,
`connection` and `timeout` maps are `cf`, `nf`, `tf`. -/
def patchedDoc (f cf nf tf : List (String × JValue)) : JValue :=
  .obj (assocSet f "client" (.obj (assocSet (assocSet cf "organization" (.str "Org1MSP"))
    "connection" (.obj (assocSet nf "timeout" (.obj (assocSet tf "discover" discoverVal)))))))

theorem patch_ok_of_path (f cf nf tf : List (String × JValue))
    (hc : lookupF f "client" = some (.obj cf))
    (hn : lookupF cf "connection" = some (.obj nf))
    (ht : lookupF nf "timeout" = some (.obj tf)) :
    patch (JValue.obj f) = Except.ok (fix_certificates (patchedDoc f cf nf tf)) := by
  have hc1 : lookupF (assocSet cf "organization" (JValue.str "Org1MSP")) "connection" =
      some (JValue.obj nf) := by
    rw [lookupF_assocSet_ne _ _ _ _ (show ("connection" : String) ≠ "organization" by decide)]
    exact hn
  simp [patch, orgStep, hc, discoverStep, lookupF_assocSet_self, hc1, ht,
    patchedDoc, assocSet_assocSet]

theorem patch_ok_inv (v w : JValue) (h : patch v = Except.ok w) :
    ∃ f cf nf tf, v = JValue.obj f ∧
      lookupF f "client" = some (JValue.obj cf) ∧
      lookupF cf "connection" = some (JValue.obj nf) ∧
      lookupF nf "timeout" = some (JValue.obj tf) ∧
      w = fix_certificates (patchedDoc f cf nf tf) := by
  obtain ⟨f, rfl⟩ : ∃ f, v = JValue.obj f := by
    cases v <;> first | exact ⟨_, rfl⟩ | simp [patch, orgStep] at h
  cases hc : lookupF f "client" with
  | none => simp [patch, orgStep, hc] at h
  | some c =>
    obtain ⟨cf, rfl⟩ : ∃ cf, c = JValue.obj cf := by
      cases c <;> first | exact ⟨_, rfl⟩ | simp [patch, orgStep, hc] at h
    have hc1 : lookupF (assocSet cf "organization" (JValue.str "Org1MSP")) "connection" =
        lookupF cf "connection" :=
      lookupF_assocSet_ne _ _ _ _ (show ("connection" : String) ≠ "organization" by decide)
    cases hn : lookupF cf "connection" with
    | none =>
      simp [patch, orgStep, hc, discoverStep, lookupF_assocSet_self, hc1, hn] at h
    | some cn =>
      obtain ⟨nf, rfl⟩ : ∃ nf, cn = JValue.obj nf := by
        cases cn <;> first
          | exact ⟨_, rfl⟩
          | simp [patch, orgStep, hc, discoverStep, lookupF_assocSet_self, hc1, hn] at h
      cases ht : lookupF nf "timeout" with
      | none =>
        simp [patch, orgStep, hc, discoverStep, lookupF_assocSet_self, hc1, hn, ht] at h
      | some tv =>
        obtain ⟨tf, rfl⟩ : ∃ tf, tv = JValue.obj tf := by
          cases tv <;> first
            | exact ⟨_, rfl⟩
            | simp [patch, orgStep, hc, discoverStep, lookupF_assocSet_self, hc1, hn, ht] at h
        refine ⟨f, cf, nf, tf, rfl, hc, hn, ht, ?_⟩
        have := patch_ok_of_path f cf nf tf hc hn ht
        rw [this] at h
        exact (Except.ok.inj h).symm

/-! ### Claim C1 -/

/-- C1 is false as stated: on the document `{"client": {}}`, which is
missing the `connection` and `timeout` maps, the patcher does not create
them — the subscript chain of lines 20–23 raises a `KeyError` and the
run fails instead of succeeding. -/
theorem C1_counterexample :
    patch (JValue.obj [("client", JValue.obj [])]) = Except.error RunError.keyError := by
  rfl

/-- C1 (amended): when `client`, `client.connection` and
`client.connection.timeout` are all present and are maps, the patcher
succeeds and sets `client.connection.timeout.discover` to
`{enabled: true, asLocalhost: true}`.  When any of them is absent or not
a map the run fails with a key or type error; intermediate maps are
never created. -/
theorem C1_discover_set (f cf nf tf : List (String × JValue))
    (hc : lookupF f "client" = some (JValue.obj cf))
    (hn : lookupF cf "connection" = some (JValue.obj nf))
    (ht : lookupF nf "timeout" = some (JValue.obj tf)) :
    ∃ w, patch (JValue.obj f) = Except.ok w ∧ discoverAt w = some discoverVal := by
  refine ⟨_, patch_ok_of_path f cf nf tf hc hn ht, ?_⟩
  simp [discoverAt, jget, patchedDoc, fix_certificates, lookupF_fixFields,
    lookupF_assocSet_self, fixEntryVal_obj, discoverVal, fixFields, fixEntryVal]

/-- Witness for the amended C1 at a concrete profile. -/
theorem C1_witness :
    ∃ w, patch demoDoc = Except.ok w ∧ discoverAt w = some discoverVal :=
  C1_discover_set
    [("client", JValue.obj [("organization", JValue.str "X"),
      ("connection", JValue.obj [("timeout", JValue.obj [])])])]
    [("organization", JValue.str "X"),
      ("connection", JValue.obj [("timeout", JValue.obj [])])]
    [("timeout", JValue.obj [])] [] (by rfl) (by rfl) (by rfl)

/-! ### Claim C6 -/

/-- C6: whenever the patcher completes, `client.organization` of the
result is the literal string `"Org1MSP"`; and when `client` is absent or
not a map, the run fails (with a key or type error) rather than
completing. -/
theorem C6_organization :
    (∀ v w, patch v = Except.ok w → orgAt w = some (JValue.str "Org1MSP")) ∧
    (∀ v, hasClientMap v = false → ∃ e, patch v = Except.error e) := by
  constructor
  · intro v w h
    obtain ⟨f, cf, nf, tf, rfl, hc, hn, ht, rfl⟩ := patch_ok_inv v w h
    have h1 : lookupF (assocSet (assocSet cf "organization" (JValue.str "Org1MSP"))
        "connection" (JValue.obj (assocSet nf "timeout"
          (JValue.obj (assocSet tf "discover" discoverVal))))) "organization" =
        some (JValue.str "Org1MSP") := by
      rw [lookupF_assocSet_ne _ _ _ _ (show ("organization" : String) ≠ "connection" by decide)]
      exact lookupF_assocSet_self _ _ _
    simp [orgAt, jget, patchedDoc, fix_certificates, lookupF_fixFields,
      lookupF_assocSet_self, fixEntryVal_obj, h1, fixEntryVal]
  · intro v h
    cases v with
    | obj f =>
      cases hc : lookupF f "client" with
      | none => exact ⟨RunError.keyError, by simp [patch, orgStep, hc]⟩
      | some c =>
        refine ⟨RunError.typeError, ?_⟩
        cases c with
        | obj cf => simp [hasClientMap, hc] at h
        | null => simp [patch, orgStep, hc]
        | bool b => simp [patch, orgStep, hc]
        | num n => simp [patch, orgStep, hc]
        | str s => simp [patch, orgStep, hc]
        | arr xs => simp [patch, orgStep, hc]
    | null => exact ⟨RunError.typeError, by simp [patch, orgStep]⟩
    | bool b => exact ⟨RunError.typeError, by simp [patch, orgStep]⟩
    | num n => exact ⟨RunError.typeError, by simp [patch, orgStep]⟩
    | str s => exact ⟨RunError.typeError, by simp [patch, orgStep]⟩
    | arr xs => exact ⟨RunError.typeError, by simp [patch, orgStep]⟩

/-- Witness for C6 at concrete documents: a successful patch of a
profile with a `client` map, and a failing run on a non-map document. -/
theorem C6_witness :
    orgAt demoPatched = some (JValue.str "Org1MSP") ∧
    ∃ e, patch (JValue.str "nope") = Except.error e :=
  ⟨C6_organization.1 demoDoc demoPatched (by rfl),
   C6_organization.2 (JValue.str "nope") (by rfl)⟩

/-! ### Claim C8 -/

/-- C8: on the document
`{"client":{"organization":"X","connection":{"timeout":{}}}}` the
patcher succeeds, sets the organization to `"Org1MSP"`, populates
`discover` with `{enabled: true, asLocalhost: true}`, and changes
nothing else — the output is exactly `demoPatched`. -/
theorem C8_scenario : patch demoDoc = Except.ok demoPatched := by
  rfl

/-! ### Facts about one run over the file system -/

theorem doBackup_src (fs : FS) : (doBackup fs).src = fs.src := by
  by_cases h : fs.bakWritable <;> cases hs : fs.src <;> simp [doBackup, h, hs]

theorem doBackup_out (fs : FS) : (doBackup fs).out = fs.out := by
  by_cases h : fs.bakWritable <;> cases hs : fs.src <;> simp [doBackup, h, hs]

theorem doBackup_outWritable (fs : FS) : (doBackup fs).outWritable = fs.outWritable := by
  by_cases h : fs.bakWritable <;> cases hs : fs.src <;> simp [doBackup, h, hs]

theorem doBackup_bak_of (fs : FS) (c : FileData) (hb : fs.bakWritable = true)
    (hs : fs.src = some c) : (doBackup fs).bak = some c := by
  simp [doBackup, hb, hs]

theorem prePatch_doBackup (fs : FS) : prePatch (doBackup fs) = prePatch fs := by
  unfold prePatch
  rw [doBackup_src]

theorem run_snd (fs : FS) :
    (run fs).2 = (match prePatch fs with
      | .error e => Except.error e
      | .ok _ => if fs.outWritable then Except.ok () else Except.error RunError.ioError) := by
  unfold run
  rw [prePatch_doBackup]
  cases hp : prePatch fs with
  | error e => simp [hp]
  | ok d =>
    simp [hp, doBackup_outWritable]
    by_cases hw : fs.outWritable <;> simp [hw]

theorem run_out (fs : FS) :
    (run fs).1.out = (match prePatch fs with
      | .error _ => fs.out
      | .ok d => if fs.outWritable then some (.json d) else fs.out) := by
  unfold run
  rw [prePatch_doBackup]
  cases hp : prePatch fs with
  | error e => simp [hp, doBackup_out]
  | ok d =>
    simp [hp, doBackup_outWritable]
    by_cases hw : fs.outWritable <;> simp [hw, doBackup_out]

theorem run_fst_src (fs : FS) : (run fs).1.src = fs.src := by
  unfold run
  cases hp : prePatch (doBackup fs) with
  | error e => simp [hp, doBackup_src]
  | ok d =>
    simp [hp]
    by_cases hw : (doBackup fs).outWritable <;> simp [hw, doBackup_src]

theorem run_fst_bak (fs : FS) : (run fs).1.bak = (doBackup fs).bak := by
  unfold run
  cases hp : prePatch (doBackup fs) with
  | error e => simp [hp]
  | ok d =>
    simp [hp]
    by_cases hw : (doBackup fs).outWritable <;> simp [hw]

/-- A state with no readable source file. -/
def noSrcFS : FS :=
  { src := none, bak := none, out := none, bakWritable := true, outWritable := true }

/-- A state where source, backup and output are all available. -/
def bakOkFS : FS :=
  { src := some (.json demoDoc), bak := none, out := none,
    bakWritable := true, outWritable := true }

/-! ### Claim C5 -/

/-- C5 is false as stated: starting from a readable source whose backup
destination is not writable, the `cp` of line 7 fails, yet the run does
not raise an IOError — it completes successfully, no backup exists
afterwards, and the mutated document has been written to the output
path. -/
theorem C5_counterexample :
    (run demoFS).2 = Except.ok () ∧ (run demoFS).1.bak = none ∧
      (run demoFS).1.out = some (FileData.json demoPatched) :=
  ⟨rfl, rfl, rfl⟩

/-- C5 (amended): the backup's exit status is discarded, so a failed
backup never aborts the run — the outcome and the written output are
independent of whether the backup destination is writable.  The run
fails with an IOError before any mutation only when the source file
itself is unreadable, in which case the output file is untouched. -/
theorem C5_backup_failure_ignored :
    (∀ fs : FS,
      (run { fs with bakWritable := false }).2 = (run { fs with bakWritable := true }).2 ∧
      (run { fs with bakWritable := false }).1.out =
        (run { fs with bakWritable := true }).1.out) ∧
    (∀ fs : FS, fs.src = none →
      (run fs).2 = Except.error RunError.ioError ∧ (run fs).1.out = fs.out) := by
  constructor
  · intro fs
    rw [run_snd, run_snd, run_out, run_out]
    exact ⟨rfl, rfl⟩
  · intro fs h
    have hp : prePatch fs = Except.error RunError.ioError := by
      simp [prePatch, h, loadDoc]
    rw [run_snd, run_out, hp]
    exact ⟨rfl, rfl⟩

/-- Witness for the amended C5: a concrete run with an unwritable
backup destination, and a concrete run with an unreadable source. -/
theorem C5_witness :
    (run { demoFS with bakWritable := false }).2 =
      (run { demoFS with bakWritable := true }).2 ∧
    (run noSrcFS).2 = Except.error RunError.ioError :=
  ⟨(C5_backup_failure_ignored.1 demoFS).1,
   (C5_backup_failure_ignored.2 noSrcFS (by rfl)).1⟩

/-! ### Claim C7 -/

/-- C7 is false as stated: a run can succeed with no backup file in
existence, because the failure of the `cp` on line 7 is ignored. -/
theorem C7_counterexample :
    (run demoFS).2 = Except.ok () ∧ (run demoFS).1.bak = none :=
  ⟨rfl, rfl⟩

/-- C7 (amended): the input file is never modified by a run — the
output is written to a distinct relative path — and whenever the backup
copy itself succeeds (readable source, writable destination) the backup
is byte-identical to the input.  A successful run does not guarantee
that the backup exists. -/
theorem C7_backup_and_input :
    (∀ fs : FS, (run fs).1.src = fs.src) ∧
    (∀ (fs : FS) (c : FileData), fs.bakWritable = true → fs.src = some c →
      (run fs).1.bak = some c) := by
  constructor
  · exact run_fst_src
  · intro fs c hb hs
    rw [run_fst_bak]
    exact doBackup_bak_of fs c hb hs

/-- Witness for the amended C7 at a concrete state with a writable
backup destination. -/
theorem C7_witness :
    (run bakOkFS).1.src = some (FileData.json demoDoc) ∧
    (run bakOkFS).1.bak = some (FileData.json demoDoc) :=
  ⟨C7_backup_and_input.1 bakOkFS,
   C7_backup_and_input.2 bakOkFS (FileData.json demoDoc) (by rfl) (by rfl)⟩

/-! ### Claim C10 -/

/-- C10: if reading the source, parsing it, or either key-path
assignment fails, the output file is never written: the run leaves the
output path exactly as it was. -/
theorem C10_no_write_on_early_failure (fs : FS) (e : RunError)
    (h : prePatch fs = Except.error e) : (run fs).1.out = fs.out := by
  rw [run_out, h]

/-- Witness for C10: an unreadable source leaves the output untouched. -/
theorem C10_witness : (run noSrcFS).1.out = none :=
  C10_no_write_on_early_failure noSrcFS RunError.ioError (by rfl)

/-! ### Character-level lemmas about the pem rewrite -/

theorem splitNlL_ne_nil (cs : List Char) : splitNlL cs ≠ [] := by
  cases cs with
  | nil => simp [splitNlL]
  | cons c cs' =>
    by_cases h : c = '\n'
    · simp [splitNlL, h]
    · simp only [splitNlL, if_neg h]
      cases hs : splitNlL cs' <;> simp

theorem joinEscL_splitNlL (cs : List Char) : joinEscL (splitNlL cs) = replaceNlL cs := by
  induction cs with
  | nil => rfl
  | cons c cs' ih =>
    by_cases h : c = '\n'
    · subst h
      rw [splitNlL, if_pos rfl]
      cases hs : splitNlL cs' with
      | nil => exact absurd hs (splitNlL_ne_nil cs')
      | cons l ls =>
        rw [hs] at ih
        simp [joinEscL, replaceNlL, ← ih]
    · rw [splitNlL, if_neg h]
      cases hs : splitNlL cs' with
      | nil => exact absurd hs (splitNlL_ne_nil cs')
      | cons l ls =>
        rw [hs] at ih
        cases ls with
        | nil => simp [joinEscL, replaceNlL, h, ← ih]
        | cons l2 ls2 => simp [joinEscL, replaceNlL, h, ← ih]

theorem replaceNlL_no_nl (cs : List Char) : '\n' ∉ replaceNlL cs := by
  induction cs with
  | nil => simp [replaceNlL]
  | cons c cs' ih =>
    by_cases h : c = '\n'
    · subst h
      simp only [replaceNlL, if_pos rfl]
      intro hmem
      rcases List.mem_cons.mp hmem with h1 | hmem2
      · exact absurd h1 (by decide)
      rcases List.mem_cons.mp hmem2 with h2 | hmem3
      · exact absurd h2 (by decide)
      · exact ih hmem3
    · simp only [replaceNlL, if_neg h]
      intro hmem
      rcases List.mem_cons.mp hmem with h1 | h2
      · exact h h1.symm
      · exact ih h2

theorem replaceNlL_of_no_nl (cs : List Char) (h : '\n' ∉ cs) : replaceNlL cs = cs := by
  induction cs with
  | nil => rfl
  | cons c cs' ih =>
    have hc : ¬(c = '\n') := fun hh => h (hh ▸ List.mem_cons_self c cs')
    have hrest : '\n' ∉ cs' := fun hh => h (List.mem_cons_of_mem c hh)
    simp [replaceNlL, hc, ih hrest]

/-! ### Claim C2 -/

/-- C2 is false as stated: on the `pem` value
`"-----BEGIN CERTIFICATE-----\nABC\n"` (with a trailing real newline)
the patched value is not the original lines joined by backslash-n — the
code strips the string first, so the trailing newline is deleted rather
than encoded. -/
theorem C2_counterexample :
    fixEntryVal "pem" (JValue.str "-----BEGIN CERTIFICATE-----\nABC\n") ≠
      JValue.str (specPemJoin "-----BEGIN CERTIFICATE-----\nABC\n") := by
  intro h
  exact absurd (JValue.str.inj h) (by decide)

/-- C2 (amended): for every map entry keyed `"pem"` whose string value
contains the PEM marker and at least one line break, the patched value
contains zero literal line breaks and equals the lines of the
whitespace-stripped original joined by the two-character sequence
backslash-n. -/
theorem C2_pem_flattened (s : String)
    (hm : strContains s pemMarker = true) (_hn : '\n' ∈ s.data) :
    fixEntryVal "pem" (JValue.str s) =
      JValue.str (String.mk (joinEscL (splitNlL (stripL s.data)))) ∧
    '\n' ∉ (String.mk (joinEscL (splitNlL (stripL s.data)))).data := by
  refine ⟨by simp [fixEntryVal, hm, flattenPem], ?_⟩
  show '\n' ∉ joinEscL (splitNlL (stripL s.data))
  rw [joinEscL_splitNlL]
  exact replaceNlL_no_nl _

/-- Witness for the amended C2 at a concrete certificate string. -/
theorem C2_witness :
    fixEntryVal "pem" (JValue.str "-----BEGIN CERTIFICATE-----\nA") =
      JValue.str (String.mk (joinEscL (splitNlL
        (stripL ("-----BEGIN CERTIFICATE-----\nA").data)))) ∧
    '\n' ∉ (String.mk (joinEscL (splitNlL
        (stripL ("-----BEGIN CERTIFICATE-----\nA").data)))).data :=
  C2_pem_flattened "-----BEGIN CERTIFICATE-----\nA" (by rfl) (by decide)

/-! ### Claim C9 -/

/-- C9: for every map entry keyed `"pem"` whose string value contains
the PEM marker, the rewritten value is the original with leading and
trailing whitespace stripped and every remaining newline replaced by
the two-character sequence backslash-n — so a trailing newline is
deleted, not encoded. -/
theorem C9_strip_and_escape (s : String) (hm : strContains s pemMarker = true) :
    fixEntryVal "pem" (JValue.str s) =
      JValue.str (String.mk (replaceNlL (stripL s.data))) := by
  simp [fixEntryVal, hm, flattenPem, joinEscL_splitNlL]

/-- Witness for C9 on a certificate with a trailing newline. -/
theorem C9_witness :
    fixEntryVal "pem" (JValue.str "-----BEGIN CERTIFICATE-----\nABC\n") =
      JValue.str (String.mk (replaceNlL
        (stripL ("-----BEGIN CERTIFICATE-----\nABC\n").data))) :=
  C9_strip_and_escape "-----BEGIN CERTIFICATE-----\nABC\n" (by rfl)

/-! ### The certificate walk acts pointwise on paths -/

theorem getAt_fix (p : List Step) : ∀ v : JValue,
    getAt (fix_certificates v) p = (getAt v p).map (cfix p) := by
  induction p with
  | nil =>
    intro v
    simp [getAt, cfix]
  | cons s p' ih =>
    intro v
    cases s with
    | key k =>
      cases v with
      | obj f =>
        simp only [fix_certificates, getAt, lookupF_fixFields]
        cases hl : lookupF f k with
        | none => simp
        | some w =>
          simp only [Option.map_some']
          show getAt (fixEntryVal k w) p' = (getAt w p').map (cfix (Step.key k :: p'))
          cases p' with
          | nil =>
            simp [getAt, cfix, List.getLast?]
          | cons s2 p'' =>
            have hcf : ∀ u, cfix (Step.key k :: s2 :: p'') u = cfix (s2 :: p'') u :=
              fun u => rfl
            cases w with
            | str t =>
              by_cases hb : (k = "pem" && strContains t pemMarker) = true <;>
                cases s2 <;> simp [fixEntryVal, hb, getAt]
            | obj f2 =>
              rw [fixEntryVal_obj]
              have h1 : getAt (fix_certificates (JValue.obj f2)) (s2 :: p'') =
                  (getAt (JValue.obj f2) (s2 :: p'')).map (cfix (s2 :: p'')) := ih _
              simp only [fix_certificates] at h1
              rw [h1]
              cases hg : getAt (JValue.obj f2) (s2 :: p'') <;> simp [hcf]
            | arr xs2 =>
              rw [fixEntryVal_arr]
              have h1 : getAt (fix_certificates (JValue.arr xs2)) (s2 :: p'') =
                  (getAt (JValue.arr xs2) (s2 :: p'')).map (cfix (s2 :: p'')) := ih _
              simp only [fix_certificates] at h1
              rw [h1]
              cases hg : getAt (JValue.arr xs2) (s2 :: p'') <;> simp [hcf]
            | null => cases s2 <;> simp [fixEntryVal, getAt]
            | bool b => cases s2 <;> simp [fixEntryVal, getAt]
            | num n => cases s2 <;> simp [fixEntryVal, getAt]
      | arr xs => simp [fix_certificates, getAt]
      | null => simp [fix_certificates, getAt]
      | bool b => simp [fix_certificates, getAt]
      | num n => simp [fix_certificates, getAt]
      | str t => simp [fix_certificates, getAt]
    | idx n =>
      cases v with
      | arr xs =>
        simp only [fix_certificates, getAt, getElem?_fixItems]
        cases hl : xs[n]? with
        | none => simp
        | some w =>
          simp only [Option.map_some']
          show getAt (fix_certificates w) p' = (getAt w p').map (cfix (Step.idx n :: p'))
          rw [ih w]
          cases p' with
          | nil => rfl
          | cons s2 p'' => rfl
      | obj f => simp [fix_certificates, getAt]
      | null => simp [fix_certificates, getAt]
      | bool b => simp [fix_certificates, getAt]
      | num n => simp [fix_certificates, getAt]
      | str t => simp [fix_certificates, getAt]

/-- On a non-container that is not a certificate-rewrite site, the walk
leaves the value at its path unchanged. -/
theorem cfix_leaf_not_pem (p : List Step) (x : JValue)
    (hleaf : isLeaf x = true) (hpem : pemSiteB p x = false) : cfix p x = x := by
  cases hgl : p.getLast? with
  | none => simp [cfix, hgl, fix_certificates_isLeaf x hleaf]
  | some s =>
    cases s with
    | idx n => simp [cfix, hgl, fix_certificates_isLeaf x hleaf]
    | key k =>
      simp only [cfix, hgl]
      cases x with
      | str t =>
        simp only [pemSiteB, hgl] at hpem
        simp [fixEntryVal, hpem]
      | obj f => simp [isLeaf] at hleaf
      | arr xs => simp [isLeaf] at hleaf
      | null => simp [fixEntryVal]
      | bool b => simp [fixEntryVal]
      | num n => simp [fixEntryVal]

/-- The two key-path assignments change nothing away from
`client.organization` and `client.connection.timeout.discover` (and the
nodes on those two paths). -/
theorem patchedDoc_frame (f cf nf tf : List (String × JValue)) (p : List Step)
    (hc : lookupF f "client" = some (JValue.obj cf))
    (hn : lookupF cf "connection" = some (JValue.obj nf))
    (ht : lookupF nf "timeout" = some (JValue.obj tf))
    (h0 : p ≠ [])
    (h1 : p ≠ [Step.key "client"])
    (h2 : p ≠ [Step.key "client", Step.key "connection"])
    (h3 : p ≠ [Step.key "client", Step.key "connection", Step.key "timeout"])
    (horg : ∀ q, p ≠ orgPath ++ q)
    (hdisc : ∀ q, p ≠ discPath ++ q) :
    getAt (patchedDoc f cf nf tf) p = getAt (JValue.obj f) p := by
  cases p with
  | nil => exact absurd rfl h0
  | cons s rest =>
    cases s with
    | idx n => simp [patchedDoc, getAt]
    | key k =>
      by_cases hk : k = "client"
      · subst hk
        simp only [patchedDoc, getAt, lookupF_assocSet_self, hc]
        cases rest with
        | nil => exact absurd rfl h1
        | cons s2 rest2 =>
          cases s2 with
          | idx n => simp [getAt]
          | key k2 =>
            by_cases hk2o : k2 = "organization"
            · subst hk2o
              exact absurd rfl (horg rest2)
            · by_cases hk2 : k2 = "connection"
              · subst hk2
                simp only [getAt, lookupF_assocSet_self, hn]
                cases rest2 with
                | nil => exact absurd rfl h2
                | cons s3 rest3 =>
                  cases s3 with
                  | idx n => simp [getAt]
                  | key k3 =>
                    by_cases hk3 : k3 = "timeout"
                    · subst hk3
                      simp only [getAt, lookupF_assocSet_self, ht]
                      cases rest3 with
                      | nil => exact absurd rfl h3
                      | cons s4 rest4 =>
                        cases s4 with
                        | idx n => simp [getAt]
                        | key k4 =>
                          by_cases hk4 : k4 = "discover"
                          · subst hk4
                            exact absurd rfl (hdisc rest4)
                          · simp only [getAt]
                            rw [lookupF_assocSet_ne tf "discover" k4 _ hk4]
                    · simp only [getAt]
                      rw [lookupF_assocSet_ne nf "timeout" k3 _ hk3]
              · simp only [getAt]
                rw [lookupF_assocSet_ne _ "connection" k2 _ hk2,
                  lookupF_assocSet_ne cf "organization" k2 _ hk2o]
      · simp only [patchedDoc, getAt]
        rw [lookupF_assocSet_ne f "client" k _ hk]

/-! ### Claim C3 -/

/-- C3: every non-container value of the document that is not at or
under `client.organization` or `client.connection.timeout.discover`,
and is not a `"pem"`-keyed string containing the PEM marker, is found
unchanged at its path after a successful patch.  In particular values
not keyed `"pem"`, and `"pem"`-keyed strings without the marker, pass
through untouched. -/
theorem C3_frame (v w : JValue) (p : List Step) (x : JValue)
    (hw : patch v = Except.ok w)
    (hx : getAt v p = some x) (hleaf : isLeaf x = true)
    (horg : ∀ q, p ≠ orgPath ++ q)
    (hdisc : ∀ q, p ≠ discPath ++ q)
    (hpem : pemSiteB p x = false) :
    getAt w p = some x := by
  obtain ⟨f, cf, nf, tf, rfl, hc, hn, ht, rfl⟩ := patch_ok_inv v w hw
  have h0 : p ≠ [] := by
    intro hp; subst hp
    simp only [getAt, Option.some.injEq] at hx
    rw [← hx] at hleaf
    simp [isLeaf] at hleaf
  have h1 : p ≠ [Step.key "client"] := by
    intro hp; subst hp
    simp only [getAt, hc, Option.some.injEq] at hx
    rw [← hx] at hleaf
    simp [isLeaf] at hleaf
  have h2 : p ≠ [Step.key "client", Step.key "connection"] := by
    intro hp; subst hp
    simp only [getAt, hc, hn, Option.some.injEq] at hx
    rw [← hx] at hleaf
    simp [isLeaf] at hleaf
  have h3 : p ≠ [Step.key "client", Step.key "connection", Step.key "timeout"] := by
    intro hp; subst hp
    simp only [getAt, hc, hn, ht, Option.some.injEq] at hx
    rw [← hx] at hleaf
    simp [isLeaf] at hleaf
  have hframe := patchedDoc_frame f cf nf tf p hc hn ht h0 h1 h2 h3 horg hdisc
  rw [getAt_fix, hframe, hx]
  simp [cfix_leaf_not_pem p x hleaf hpem]

/-- A profile with an extra field `client.keep` that the patcher must
not touch. -/
def frameDoc : JValue :=
  .obj [("client", .obj [("organization", .str "X"),
    ("connection", .obj [("timeout", .obj [])]),
    ("keep", .str "kept")])]

/-- The document `frameDoc` after patching. -/
def framePatched : JValue :=
  .obj [("client", .obj [("organization", .str "Org1MSP"),
    ("connection", .obj [("timeout", .obj [("discover", discoverVal)])]),
    ("keep", .str "kept")])]

/-- Witness for C3: the untouched field `client.keep` survives a
concrete successful patch. -/
theorem C3_witness :
    getAt framePatched [Step.key "client", Step.key "keep"] =
      some (JValue.str "kept") :=
  C3_frame frameDoc framePatched [Step.key "client", Step.key "keep"]
    (JValue.str "kept") (by rfl) (by rfl) (by rfl)
    (by intro q h; simp [orgPath] at h)
    (by intro q h; simp [discPath] at h)
    (by rfl)

/-! ### Idempotence of the pem rewrite -/

theorem head?_dropWhile_false (l : List Char) (c : Char)
    (h : (l.dropWhile pyWs).head? = some c) : pyWs c = false := by
  induction l with
  | nil => simp [List.dropWhile] at h
  | cons a t ih =>
    by_cases ha : pyWs a = true
    · simp only [List.dropWhile_cons, ha, if_true] at h
      exact ih h
    · simp only [List.dropWhile_cons, ha, if_false, Bool.false_eq_true] at h
      simp only [List.head?, Option.some.injEq] at h
      rw [← h]
      exact Bool.not_eq_true _ |>.mp ha

theorem dropWhile_eq_self_of_head (l : List Char)
    (h : ∀ c, l.head? = some c → pyWs c = false) : l.dropWhile pyWs = l := by
  cases l with
  | nil => rfl
  | cons a t =>
    have := h a rfl
    simp [List.dropWhile_cons, this]

theorem stripL_eq_self (l : List Char)
    (hh : ∀ c, l.head? = some c → pyWs c = false)
    (hl : ∀ c, l.getLast? = some c → pyWs c = false) : stripL l = l := by
  unfold stripL rstripL
  rw [dropWhile_eq_self_of_head l hh]
  rw [dropWhile_eq_self_of_head l.reverse (fun c hc => by
    rw [List.head?_reverse] at hc
    exact hl c hc)]
  exact List.reverse_reverse l

theorem stripL_head (cs : List Char) (c : Char) (h : (stripL cs).head? = some c) :
    pyWs c = false := by
  apply head?_dropWhile_false cs c
  have hy : cs.dropWhile pyWs =
      ((cs.dropWhile pyWs).reverse.dropWhile pyWs).reverse ++
        ((cs.dropWhile pyWs).reverse.takeWhile pyWs).reverse := by
    have h2 := congrArg List.reverse
      (List.takeWhile_append_dropWhile (p := pyWs) (l := (cs.dropWhile pyWs).reverse))
    rw [List.reverse_append, List.reverse_reverse] at h2
    exact h2.symm
  unfold stripL rstripL at h
  cases hzr : ((cs.dropWhile pyWs).reverse.dropWhile pyWs).reverse with
  | nil => rw [hzr] at h; simp at h
  | cons a t =>
    rw [hzr] at h
    simp only [List.head?, Option.some.injEq] at h
    rw [hy, hzr, ← h]
    rfl

theorem stripL_getLast (cs : List Char) (c : Char)
    (h : (stripL cs).getLast? = some c) : pyWs c = false := by
  unfold stripL rstripL at h
  rw [List.getLast?_reverse] at h
  exact head?_dropWhile_false _ c h

theorem replaceNlL_ne_nil (a : Char) (l : List Char) : replaceNlL (a :: l) ≠ [] := by
  by_cases h : a = '\n' <;> simp [replaceNlL, h]

theorem getLast?_cons_ne (x : Char) (l : List Char) (h : l ≠ []) :
    (x :: l).getLast? = l.getLast? := by
  cases l with
  | nil => exact absurd rfl h
  | cons b t => rfl

theorem replaceNlL_getLast (l : List Char) (c : Char) (hl : l.getLast? = some c)
    (hc : ¬(c = '\n')) : (replaceNlL l).getLast? = some c := by
  induction l with
  | nil => simp at hl
  | cons a t ih =>
    cases t with
    | nil =>
      have hca : a = c := Option.some.inj hl
      subst hca
      simp only [replaceNlL]
      rw [if_neg hc]
      rfl
    | cons b t2 =>
      have hr := ih hl
      by_cases ha : a = '\n'
      · subst ha
        have hstep : replaceNlL ('\n' :: b :: t2) = '\\' :: 'n' :: replaceNlL (b :: t2) := by
          rw [replaceNlL, if_pos rfl]
        rw [hstep, getLast?_cons_ne '\\' _ (List.cons_ne_nil _ _),
          getLast?_cons_ne 'n' _ (replaceNlL_ne_nil b t2)]
        exact hr
      · have hstep : replaceNlL (a :: b :: t2) = a :: replaceNlL (b :: t2) := by
          rw [replaceNlL, if_neg ha]
        rw [hstep, getLast?_cons_ne a _ (replaceNlL_ne_nil b t2)]
        exact hr

theorem strip_replace_strip (cs : List Char) :
    stripL (replaceNlL (stripL cs)) = replaceNlL (stripL cs) := by
  cases hd : stripL cs with
  | nil => simp [replaceNlL, stripL, rstripL, List.dropWhile]
  | cons a d' =>
    have ha : pyWs a = false := stripL_head cs a (by rw [hd]; rfl)
    have han : ¬(a = '\n') := by
      intro hh; rw [hh] at ha
      exact absurd ha (by decide)
    obtain ⟨b, hb⟩ : ∃ b, (a :: d').getLast? = some b :=
      ⟨(a :: d').getLast (by simp), List.getLast?_eq_getLast _ _⟩
    have hbw : pyWs b = false := stripL_getLast cs b (by rw [hd]; exact hb)
    have hbn : ¬(b = '\n') := by
      intro hh; rw [hh] at hbw
      exact absurd hbw (by decide)
    apply stripL_eq_self
    · intro c hc
      rw [show replaceNlL (a :: d') = a :: replaceNlL d' from by
        simp [replaceNlL, han]] at hc
      simp only [List.head?, Option.some.injEq] at hc
      rw [← hc]; exact ha
    · intro c hc
      rw [replaceNlL_getLast (a :: d') b hb hbn] at hc
      injection hc with hc
      rw [← hc]; exact hbw

theorem flattenPem_idem (s : String) : flattenPem (flattenPem s) = flattenPem s := by
  show String.mk (joinEscL (splitNlL (stripL (joinEscL (splitNlL (stripL s.data)))))) =
    String.mk (joinEscL (splitNlL (stripL s.data)))
  simp only [joinEscL_splitNlL]
  rw [strip_replace_strip]
  rw [replaceNlL_of_no_nl _ (replaceNlL_no_nl _)]

mutual

theorem fix_certificates_idem : (v : JValue) →
    fix_certificates (fix_certificates v) = fix_certificates v
  | .obj f => by
    simp only [fix_certificates]
    rw [fixFields_idem f]
  | .arr xs => by
    simp only [fix_certificates]
    rw [fixItems_idem xs]
  | .null => rfl
  | .bool b => rfl
  | .num n => rfl
  | .str s => rfl

theorem fixFields_idem : (f : List (String × JValue)) →
    fixFields (fixFields f) = fixFields f
  | [] => rfl
  | (k, v) :: rest => by
    simp only [fixFields]
    rw [fixEntryVal_idem k v, fixFields_idem rest]

theorem fixEntryVal_idem : (k : String) → (v : JValue) →
    fixEntryVal k (fixEntryVal k v) = fixEntryVal k v
  | k, .str s => by
    by_cases hc : (k = "pem" && strContains s pemMarker) = true
    · simp only [fixEntryVal, hc, if_true]
      by_cases hc2 : (k = "pem" && strContains (flattenPem s) pemMarker) = true <;>
        simp [fixEntryVal, hc2, flattenPem_idem]
    · simp [fixEntryVal, hc]
  | k, .obj f => by
    rw [fixEntryVal_obj, fixEntryVal_obj, fixFields_idem f]
  | k, .arr xs => by
    rw [fixEntryVal_arr, fixEntryVal_arr, fixItems_idem xs]
  | _, .null => rfl
  | _, .bool b => rfl
  | _, .num n => rfl

theorem fixItems_idem : (xs : List JValue) → fixItems (fixItems xs) = fixItems xs
  | [] => rfl
  | v :: rest => by
    simp only [fixItems]
    rw [fix_certificates_idem v, fixItems_idem rest]

end

/-- Patching the output of a successful patch changes nothing: the
three fields are already set and the certificate walk is idempotent. -/
theorem patch_idem_aux (f cf nf tf : List (String × JValue)) :
    patch (fix_certificates (patchedDoc f cf nf tf)) =
      Except.ok (fix_certificates (patchedDoc f cf nf tf)) := by
  simp only [patchedDoc, fix_certificates]
  generalize hDd : assocSet tf "discover" discoverVal = Dd
  generalize hCc : assocSet nf "timeout" (JValue.obj Dd) = Cc
  generalize hcf1 : assocSet cf "organization" (JValue.str "Org1MSP") = cf1
  generalize hB : assocSet cf1 "connection" (JValue.obj Cc) = B
  generalize hA : assocSet f "client" (JValue.obj B) = A
  have hlA : lookupF (fixFields A) "client" = some (JValue.obj (fixFields B)) := by
    rw [lookupF_fixFields, ← hA, lookupF_assocSet_self]
    rfl
  have hlB : lookupF (fixFields B) "connection" = some (JValue.obj (fixFields Cc)) := by
    rw [lookupF_fixFields, ← hB, lookupF_assocSet_self]
    rfl
  have hlC : lookupF (fixFields Cc) "timeout" = some (JValue.obj (fixFields Dd)) := by
    rw [lookupF_fixFields, ← hCc, lookupF_assocSet_self]
    rfl
  have hpatch := patch_ok_of_path (fixFields A) (fixFields B) (fixFields Cc)
    (fixFields Dd) hlA hlB hlC
  have hD2 : assocSet (fixFields Dd) "discover" discoverVal = fixFields Dd := by
    apply assocSet_of_lookupF
    rw [lookupF_fixFields, ← hDd, lookupF_assocSet_self]
    rfl
  have hT2 : assocSet (fixFields Cc) "timeout" (JValue.obj (fixFields Dd)) =
      fixFields Cc := assocSet_of_lookupF _ _ _ hlC
  have hO2 : assocSet (fixFields B) "organization" (JValue.str "Org1MSP") =
      fixFields B := by
    apply assocSet_of_lookupF
    rw [lookupF_fixFields, ← hB,
      lookupF_assocSet_ne _ _ _ _ (show ("organization" : String) ≠ "connection" by decide),
      ← hcf1, lookupF_assocSet_self]
    rfl
  have hConn2 : assocSet (fixFields B) "connection" (JValue.obj (fixFields Cc)) =
      fixFields B := assocSet_of_lookupF _ _ _ hlB
  have hCl2 : assocSet (fixFields A) "client" (JValue.obj (fixFields B)) =
      fixFields A := assocSet_of_lookupF _ _ _ hlA
  rw [patchedDoc, hD2, hT2, hO2, hConn2, hCl2] at hpatch
  have hfix : fix_certificates (JValue.obj (fixFields A)) = JValue.obj (fixFields A) := by
    simp only [fix_certificates]
    rw [fixFields_idem]
  rw [hfix] at hpatch
  exact hpatch

/-! ### Claim C4 -/

/-- C4: the patcher is idempotent — applying the full patch to the
output of a previous successful patch succeeds and returns the document
unchanged. -/
theorem C4_idempotent (v w : JValue) (h : patch v = Except.ok w) :
    patch w = Except.ok w := by
  obtain ⟨f, cf, nf, tf, rfl, hc, hn, ht, rfl⟩ := patch_ok_inv v w h
  exact patch_idem_aux f cf nf tf

/-- Witness for C4: re-patching a concrete patched profile is a no-op. -/
theorem C4_witness : patch demoPatched = Except.ok demoPatched :=
  C4_idempotent demoDoc demoPatched (by rfl)

end FixProfile
